import Mathlib

/-!
Shallow embedding of the aggregation-and-prediction pipeline of the
PSA squash predictor (backend/predict/{model,features,fetch}.py),
together with proofs settling the specification claims about it.

Conventions used throughout:
* Python floats are modelled as real numbers (`ℝ`); the probability
  pair produced by `ranking_prior` consists of exact decimal literals,
  so it is modelled over `ℚ`.
* Dates are modelled as integer day numbers; `reference_date - date`
  in days becomes integer subtraction.
* `numpy.clip`, `scipy.special.expit`, `scipy.special.logit`,
  `round(x, 3)` are modelled by `np_clip`, `sigmoid`, `logit`,
  `round3` below.  Python's `round` performs round-half-to-even, which
  `rhe` models exactly over `ℝ`.
-/

namespace PSA

/-! ### model.py : ranking tiers and the ranking prior -/

/-- `get_tier` from model.py: the loop over the `TIERS` breakpoint table
`[(1,5),(6,20),(21,50),(51,100),(101,200),(201,9999)]`, returning the
index of the band containing the rank and defaulting to the lowest
tier 5 when no band matches. -/
def get_tier (rank : ℤ) : ℕ :=
  if 1 ≤ rank ∧ rank ≤ 5 then 0
  else if 6 ≤ rank ∧ rank ≤ 20 then 1
  else if 21 ≤ rank ∧ rank ≤ 50 then 2
  else if 51 ≤ rank ∧ rank ≤ 100 then 3
  else if 101 ≤ rank ∧ rank ≤ 200 then 4
  else if 201 ≤ rank ∧ rank ≤ 9999 then 5
  else 5

/-- The `underdog_caps` dictionary lookup `underdog_caps.get(tier_gap, 0.10)`
inside `ranking_prior`. -/
def underdogCap (gap : ℤ) : ℚ :=
  if gap = 0 then 45/100
  else if gap = 1 then 40/100
  else if gap = 2 then 35/100
  else if gap = 3 then 25/100
  else if gap = 4 then 15/100
  else 10/100

/-- `ranking_prior` from model.py: ranking-based prior probabilities
`(p_a, p_b)`.  Equal ranks yield the fixed pair `(0.52, 0.48)`;
otherwise the favorite (lower rank) receives `1 - cap` where `cap` is
the underdog cap for the signed tier gap `tier(underdog) - tier(favorite)`. -/
def ranking_prior (rank_a rank_b : ℤ) : ℚ × ℚ :=
  if rank_a < rank_b then
    (1 - underdogCap ((get_tier rank_b : ℤ) - (get_tier rank_a : ℤ)),
      underdogCap ((get_tier rank_b : ℤ) - (get_tier rank_a : ℤ)))
  else if rank_b < rank_a then
    (underdogCap ((get_tier rank_a : ℤ) - (get_tier rank_b : ℤ)),
      1 - underdogCap ((get_tier rank_a : ℤ) - (get_tier rank_b : ℤ)))
  else
    (52/100, 48/100)

/-! ### Feature bundle consumed by model.py -/

/-- The per-player form sub-dictionary produced by
`calculate_enhanced_form` and consumed by `predict_match`. -/
structure FormOut where
  win_rate : ℝ
  avg_game_diff : ℝ
  matches_played : ℕ
  quality_adjusted_win_rate : ℝ
  recent_momentum : ℝ

/-- The head-to-head summary dictionary produced by `calculate_h2h`. -/
structure H2HOut where
  n_matches : ℕ
  n_effective : ℝ
  a_win_rate : ℝ
  avg_game_diff_a : ℝ
  days_since_last : ℤ

/-- The trend sub-dictionary produced by `calculate_performance_trend`. -/
structure TrendOut where
  trend : ℝ
  consistency : ℝ

/-- The slice of the feature dictionary that `predict_match` and its
helpers read (`elo_diff`, `form_a`, `form_b`, `h2h`, `trend_a`, `trend_b`). -/
structure Features where
  elo_diff : ℝ
  form_a : FormOut
  form_b : FormOut
  h2h : H2HOut
  trend_a : TrendOut
  trend_b : TrendOut

/-- The two competitors; the Python code uses the strings `"A"`/`"B"`. -/
inductive Player where
  | A : Player
  | B : Player
  deriving DecidableEq, Repr

/-- The fields of the prediction dictionary covered by the claims:
`winner` and the rounded `proba` pair. -/
structure Prediction where
  winner : Player
  probaA : ℝ
  probaB : ℝ

/-! ### Real-valued helpers: expit, logit, clip, Python round -/

/-- `scipy.special.expit`: the logistic sigmoid. -/
noncomputable def sigmoid (x : ℝ) : ℝ := 1 / (1 + Real.exp (-x))

/-- `scipy.special.logit`: the log-odds transform. -/
noncomputable def logit (p : ℝ) : ℝ := Real.log (p / (1 - p))

/-- `np.clip(x, lo, hi)`. -/
noncomputable def np_clip (x lo hi : ℝ) : ℝ := min hi (max lo x)

/-- Round-half-to-even to the nearest integer, the tie-breaking rule of
Python's built-in `round`. -/
noncomputable def rhe (x : ℝ) : ℤ :=
  if Int.fract x = 1/2 then (if Even ⌊x⌋ then ⌊x⌋ else ⌊x⌋ + 1) else round x

/-- Python's `round(x, 3)`: round-half-to-even at the third decimal. -/
noncomputable def round3 (x : ℝ) : ℝ := ((rhe (1000 * x) : ℤ) : ℝ) / 1000

/-! ### model.py : evidence model, H2H adjustment, override conditions -/

/-- `evidence_probability` from model.py: base Elo logistic term plus
weighted form, momentum and trend differences, clipped to `[0.01, 0.99]`. -/
noncomputable def evidence_probability (f : Features) : ℝ :=
  let p_elo := 1 / (1 + (10 : ℝ) ^ (-f.elo_diff / 400))
  let form_factor := (f.form_a.quality_adjusted_win_rate -
    f.form_b.quality_adjusted_win_rate) * (15/100)
  let momentum_factor := (f.form_a.recent_momentum - f.form_b.recent_momentum) * (1/10)
  let trend_factor := (f.trend_a.trend - f.trend_b.trend) * (1/10)
  np_clip (p_elo + form_factor + momentum_factor + trend_factor) (1/100) (99/100)

/-- `calculate_evidence_weight` from model.py:
`clip(sqrt((n_a + n_b)/2)/10, 0.2, 1.0)`. -/
noncomputable def calculate_evidence_weight (f : Features) : ℝ :=
  let n_evidence : ℝ := ((f.form_a.matches_played + f.form_b.matches_played : ℕ) : ℝ) / 2
  np_clip (Real.sqrt n_evidence / 10) (2/10) 1

/-- `h2h_adjustment` from model.py: zero without head-to-head matches,
otherwise a strength step in the effective sample size times the signed
direction `(a_win_rate - 0.5) * 2`. -/
noncomputable def h2h_adjustment (f : Features) : ℝ :=
  if f.h2h.n_matches = 0 then 0
  else
    let strength : ℝ :=
      if f.h2h.n_effective < 2 then 5/100
      else if f.h2h.n_effective < 3 then 10/100
      else if f.h2h.n_effective < 5 then 20/100
      else 30/100
    (f.h2h.a_win_rate - 1/2) * 2 * strength

/-- Override condition 1 of `check_override_conditions`: the underdog
leads the favorite by at least 180 Elo points (the `else` branch of the
Python code treats B as the underdog when ranks are equal). -/
def condElo (f : Features) (rank_a rank_b : ℤ) : Prop :=
  if rank_b < rank_a then (180 : ℝ) ≤ f.elo_diff else f.elo_diff ≤ -180

/-- Override condition 3 of `check_override_conditions`: at least five
head-to-head matches with the underdog winning at least a 70% share. -/
def condH2H (f : Features) (rank_a rank_b : ℤ) : Prop :=
  5 ≤ f.h2h.n_matches ∧
    ((rank_b < rank_a ∧ (70/100 : ℝ) ≤ f.h2h.a_win_rate) ∨
     (rank_a < rank_b ∧ f.h2h.a_win_rate ≤ (30/100 : ℝ)))

open Classical in
/-- The `conditions_met` counter of `check_override_conditions`: condition 2
(quality of wins versus top-20 opposition) is skipped in the code, so only
conditions 1 and 3 can contribute. -/
noncomputable def conditions_met (f : Features) (rank_a rank_b : ℤ) : ℕ :=
  (if condElo f rank_a rank_b then 1 else 0) + (if condH2H f rank_a rank_b then 1 else 0)

/-- `check_override_conditions` from model.py: true iff at least 2 of the
override conditions are met. -/
def check_override_conditions (f : Features) (rank_a rank_b : ℤ) : Prop :=
  2 ≤ conditions_met f rank_a rank_b

/-! ### model.py : predict_match -/

/-- The `abs(tier_a - tier_b)` computation of `predict_match`. -/
def tier_gap_of (rank_a rank_b : ℤ) : ℤ :=
  |(get_tier rank_a : ℤ) - (get_tier rank_b : ℤ)|

/-- The `caps.get(tier_gap, 0.10)` lookup with `caps = {3: 0.25, 4: 0.15}`
inside the guardrail branch of `predict_match`. -/
noncomputable def guardCapValue (gap : ℤ) : ℝ :=
  if gap = 3 then 25/100 else if gap = 4 then 15/100 else 10/100

/-- The blended final log-odds of `predict_match` (steps 1-4):
`w * logit(evidence) + (1 - w) * logit(prior) + delta_h2h`. -/
noncomputable def logit_final (f : Features) (rank_a rank_b : ℤ) : ℝ :=
  let logit_prior := logit ((ranking_prior rank_a rank_b).1 : ℝ)
  let logit_elo := logit (evidence_probability f)
  let w := calculate_evidence_weight f
  w * logit_elo + (1 - w) * logit_prior + h2h_adjustment f

open Classical in
/-- Step 5 of `predict_match`: with a tier gap of at least 3, fewer than 3
head-to-head matches and no override, cap the underdog's probability using
`guardCapValue`; otherwise leave the probability unchanged. -/
noncomputable def guardrailCap (f : Features) (rank_a rank_b gap : ℤ) (p : ℝ) : ℝ :=
  if 3 ≤ gap ∧ f.h2h.n_matches < 3 ∧ ¬ check_override_conditions f rank_a rank_b then
    (if rank_b < rank_a then min p (guardCapValue gap) else max p (1 - guardCapValue gap))
  else p

/-- The monotonicity clamp of `predict_match`: the better-ranked player's
probability is floored at 0.52 (equivalently the other's is capped at 0.48). -/
noncomputable def monotonicityClamp (rank_a rank_b : ℤ) (p : ℝ) : ℝ :=
  if rank_a < rank_b then max p (52/100)
  else if rank_b < rank_a then min p (48/100)
  else p

/-- The final (pre-rounding) probability `p_final_a` computed by
`predict_match`. -/
noncomputable def p_final (f : Features) (rank_a rank_b : ℤ) : ℝ :=
  monotonicityClamp rank_a rank_b
    (guardrailCap f rank_a rank_b (tier_gap_of rank_a rank_b)
      (sigmoid (logit_final f rank_a rank_b)))

/-- `predict_match` from model.py, restricted to the winner and the rounded
probability pair (`round(p, 3)`); the bootstrap interval and the explanation
block do not feed back into these fields. -/
noncomputable def predict_match (f : Features) (rank_a rank_b : ℤ) : Prediction :=
  let p := p_final f rank_a rank_b
  { winner := if 1 - p < p then Player.A else Player.B
    probaA := round3 p
    probaB := round3 (1 - p) }

/-! ### features.py : match records and the feature extractor

A history row carries a day-number date, a win/loss result, game counts
and the per-game score pairs.  The score string of the source data
(`"11-8, 11-9, ..."`) is modelled already parsed into integer pairs; an
empty or unparseable score string corresponds to the empty list, for
which `analyze_score_quality` returns its neutral `0.5`. -/

/-- One row of a competitor's match history as consumed by features.py. -/
structure MRec where
  date : ℤ
  result : Bool
  games_won : ℕ
  games_lost : ℕ
  score : List (ℤ × ℤ)
  deriving DecidableEq

/-- `analyze_score_quality` from features.py: the share of games decided
by at most 3 points; `0.5` for an empty (or unparseable) score. -/
noncomputable def analyze_score_quality (games : List (ℤ × ℤ)) : ℝ :=
  if games = [] then 1/2
  else ((games.countP fun g => |g.1 - g.2| ≤ 3 : ℕ) : ℝ) / (games.length : ℝ)

/-- `estimate_opponent_strength` from features.py:
`clamp(score_ratio * 0.7 + score_quality * 0.3)` to `[0, 1]`,
with `0.5` when no games were recorded. -/
noncomputable def estimate_opponent_strength (m : MRec) : ℝ :=
  let total : ℕ := m.games_won + m.games_lost
  if total = 0 then 1/2
  else
    let score_share : ℝ := (m.games_won : ℝ) / (total : ℝ)
    let strength := score_share * (7/10) + analyze_score_quality m.score * (3/10)
    min 1 (max 0 strength)

/-- The exponential half-life recency weight `0.5 ** (days_ago / 180)` of
`calculate_enhanced_elo` (`HALF_LIFE_DAYS = 180`). -/
noncomputable def eloWeight (ref : ℤ) (m : MRec) : ℝ :=
  (1/2 : ℝ) ^ (((ref - m.date : ℤ) : ℝ) / 180)

/-- One iteration of the rating loop of `calculate_enhanced_elo`: add
`adjusted_K * weight` for a win, subtract half of it for a loss, where
`adjusted_K = 32 * (1 + 0.5 * opponent_strength)`. -/
noncomputable def eloStep (ref : ℤ) (e : ℝ) (m : MRec) : ℝ :=
  let w := eloWeight ref m
  let s := estimate_opponent_strength m
  let aK := 32 * (1 + (1/2) * s)
  if m.result then e + aK * w else e - aK * w * (1/2)

/-- The net contribution of a single match to the rating walk
(`eloStep` moves the running value by exactly this amount). -/
noncomputable def eloContrib (ref : ℤ) (m : MRec) : ℝ :=
  let w := eloWeight ref m
  let s := estimate_opponent_strength m
  let aK := 32 * (1 + (1/2) * s)
  if m.result then aK * w else -(aK * w * (1/2))

/-- `calculate_enhanced_elo` from features.py: `(1500, 0.0)` for an empty
history, otherwise the rating walk from the base rating 1500 clamped to
`[1000, 2500]`, paired with the average weighted opponent quality. -/
noncomputable def calculate_enhanced_elo (hist : List MRec) (ref : ℤ) : ℝ × ℝ :=
  if hist = [] then (1500, 0)
  else
    let elo := hist.foldl (eloStep ref) 1500
    let quality :=
      ((hist.map fun m => estimate_opponent_strength m * eloWeight ref m).sum) /
        (hist.length : ℝ)
    (max 1000 (min 2500 elo), quality)

/-- `calculate_enhanced_form` from features.py over the `n_matches` most
recent rows (the history is stored most-recent-first, so `head(n)` is
`take n`); the empty history yields the documented neutral defaults. -/
noncomputable def calculate_enhanced_form (hist : List MRec) (n_matches : ℕ) : FormOut :=
  if hist = [] then
    { win_rate := 1/2, avg_game_diff := 0, matches_played := 0
      quality_adjusted_win_rate := 1/2, recent_momentum := 0 }
  else
    let recent := hist.take n_matches
    let wins : ℕ := recent.countP (·.result)
    let total : ℕ := recent.length
    let win_rate : ℝ := if 0 < total then (wins : ℝ) / (total : ℝ) else 1/2
    let game_diffs := recent.map fun m => (m.games_won : ℝ) - (m.games_lost : ℝ)
    let avg_game_diff : ℝ :=
      if game_diffs = [] then 0 else game_diffs.sum / (game_diffs.length : ℝ)
    let quality_scores := recent.map fun m =>
      if m.result then 1 * (1 + estimate_opponent_strength m) else 0
    let quality_win_rate : ℝ :=
      if quality_scores = [] then 1/2
      else (quality_scores.sum / (quality_scores.length : ℝ)) / (3/2)
    let momentum_matches : ℕ := min 5 recent.length
    let momentum : ℝ :=
      if 0 < momentum_matches then
        (((recent.take momentum_matches).countP (·.result) : ℕ) : ℝ) /
          (momentum_matches : ℝ) - 1/2
      else 0
    { win_rate := win_rate, avg_game_diff := avg_game_diff, matches_played := total
      quality_adjusted_win_rate := quality_win_rate, recent_momentum := momentum }

/-- Population mean of a list of reals (`np.mean`). -/
noncomputable def npMean (l : List ℝ) : ℝ := l.sum / (l.length : ℝ)

/-- Population variance of a list of reals (`np.var`). -/
noncomputable def npVar (l : List ℝ) : ℝ :=
  ((l.map fun y => (y - npMean l) ^ 2).sum) / (l.length : ℝ)

/-- The slope of the degree-1 least-squares fit of `np.polyfit(x, y, 1)`
with `x = 0, 1, ..., n-1`, in closed form. -/
noncomputable def lsSlope (ys : List ℝ) : ℝ :=
  let n : ℝ := (ys.length : ℝ)
  let xs := (List.range ys.length).map fun i => (i : ℝ)
  let sx := xs.sum
  let sy := ys.sum
  let sxy := ((xs.zip ys).map fun p => p.1 * p.2).sum
  let sxx := (xs.map fun x => x ^ 2).sum
  (n * sxy - sx * sy) / (n * sxx - sx ^ 2)

/-- The clamp `max(0.0, min(1.0, c))` applied to the consistency value. -/
noncomputable def clamp01 (x : ℝ) : ℝ := max 0 (min 1 x)

/-- The per-bucket win rates of `calculate_performance_trend`: the last
`12` weeks (84 days) are partitioned into six 2-week buckets, oldest
first, and each non-empty bucket contributes its win rate. -/
noncomputable def bucketRates (hist : List MRec) (ref : ℤ) : List ℝ :=
  let cutoff := ref - 84
  let recent := hist.filter fun m => cutoff ≤ m.date
  (List.range 6).filterMap fun i =>
    let bucket := recent.filter fun m =>
      cutoff + 14 * (i : ℤ) ≤ m.date ∧ m.date < cutoff + 14 * ((i : ℤ) + 1)
    if bucket.length = 0 then none
    else some (((bucket.countP (·.result) : ℕ) : ℝ) / (bucket.length : ℝ))

/-- `calculate_performance_trend` from features.py (`weeks = 12`): neutral
`{trend: 0, consistency: 0.5}` for an empty history or fewer than 3 matches
in the window or fewer than 2 non-empty buckets; otherwise the least-squares
slope of the bucket win rates and `1 - variance`, consistency clamped to `[0,1]`. -/
noncomputable def calculate_performance_trend (hist : List MRec) (ref : ℤ) : TrendOut :=
  if hist = [] then { trend := 0, consistency := 1/2 }
  else if (hist.filter fun m => ref - 84 ≤ m.date).length < 3 then
    { trend := 0, consistency := 1/2 }
  else if 2 ≤ (bucketRates hist ref).length then
    { trend := lsSlope (bucketRates hist ref),
      consistency := clamp01 (1 - npVar (bucketRates hist ref)) }
  else
    { trend := 0, consistency := clamp01 (1/2) }

/-- `calculate_fatigue` from features.py: the number of matches within 14
and within 30 days of the reference date. -/
def calculate_fatigue (hist : List MRec) (ref : ℤ) : ℕ × ℕ :=
  if hist = [] then (0, 0)
  else
    ((hist.countP fun m => ref - 14 ≤ m.date), (hist.countP fun m => ref - 30 ≤ m.date))

/-- One row of the head-to-head subset: date, the tagged winner
(`true` iff A won) and player A's game counts for that match. -/
structure HRec where
  date : ℤ
  winner : Bool
  games_won : ℕ
  games_lost : ℕ
  deriving DecidableEq

instance : Inhabited HRec := ⟨⟨0, false, 0, 0⟩⟩

/-- The neutral head-to-head defaults returned for a missing or empty subset. -/
noncomputable def h2hDefaults : H2HOut :=
  { n_matches := 0, n_effective := 0, a_win_rate := 1/2
    avg_game_diff_a := 0, days_since_last := 9999 }

/-- The recency weight `0.5 ** (days_ago / 365)` used for the effective
head-to-head sample size in `calculate_h2h`. -/
noncomputable def h2hWeight (ref : ℤ) (r : HRec) : ℝ :=
  (1/2 : ℝ) ^ (((ref - r.date : ℤ) : ℝ) / 365)

/-- `calculate_h2h` from features.py: neutral defaults for a missing
(`None`) or empty subset, otherwise raw statistics over all rows plus a
time-decayed effective sample size over the rows of the last 730 days.
The unused `player_a_name` argument of the source is kept. -/
noncomputable def calculate_h2h (h2h_df : Option (List HRec)) (_player_a_name : String)
    (ref : ℤ) : H2HOut :=
  match h2h_df with
  | none => h2hDefaults
  | some rows =>
    if rows = [] then h2hDefaults
    else
      let n_matches := rows.length
      let recent := rows.filter fun r => ref - 730 ≤ r.date
      let n_effective : ℝ :=
        if recent = [] then 0 else (recent.map (h2hWeight ref)).sum
      let a_wins : ℕ := rows.countP (·.winner)
      let a_win_rate : ℝ :=
        if 0 < n_matches then (a_wins : ℝ) / (n_matches : ℝ) else 1/2
      let game_diffs := rows.map fun r =>
        ((r.games_won : ℝ) - (r.games_lost : ℝ)) * (if r.winner then 1 else -1)
      let avg_game_diff : ℝ :=
        if game_diffs = [] then 0 else game_diffs.sum / (game_diffs.length : ℝ)
      let most_recent := (rows.map (·.date)).foldl max (rows.headI.date)
      { n_matches := n_matches, n_effective := n_effective, a_win_rate := a_win_rate
        avg_game_diff_a := avg_game_diff, days_since_last := ref - most_recent }

/-- The spec's reading of the effective head-to-head sample size: the sum
of `0.5 ** (days_ago / 180)` (the 180-day half-life of the rating
estimate) over the head-to-head rows of the last 730 days.  Stated from
the spec's words, to be compared with the source's `calculate_h2h`. -/
noncomputable def h2h_n_effective_spec (rows : List HRec) (ref : ℤ) : ℝ :=
  ((rows.filter fun r => ref - 730 ≤ r.date).map fun r =>
    (1/2 : ℝ) ^ (((ref - r.date : ℤ) : ℝ) / 180)).sum

/-! ### fetch.py : the history aggregator

`get_extended_match_history` concatenates the source-tagged fragments in
priority order, drops duplicate `(date, opponent)` keys keeping the first
occurrence (`drop_duplicates(subset=['date','opponent'], keep='first')`)
and sorts the result descending by date.  The surrounding network code is
out of scope; the merge itself operates on materialized fragments. -/

/-- A source-tagged history row as seen by the aggregator.  Only the
`(date, opponent)` pair acts as the dedup key; the remaining fields ride
along so that records from different sources can disagree. -/
structure SRec where
  date : ℤ
  opponent : String
  result : Bool
  games_won : ℕ
  games_lost : ℕ
  source : String
  deriving DecidableEq

/-- The dedup key `(date, opponent)`. -/
def skey (r : SRec) : ℤ × String := (r.date, r.opponent)

/-- `drop_duplicates(subset=['date','opponent'], keep='first')`: keep a
row iff its key has not been seen earlier in the list. -/
def dropDupFirst (seen : List (ℤ × String)) : List SRec → List SRec
  | [] => []
  | r :: rs =>
    if skey r ∈ seen then dropDupFirst seen rs
    else r :: dropDupFirst (skey r :: seen) rs

/-- Descending-by-date comparison used for `sort_values('date', ascending=False)`. -/
def dateGE (a b : SRec) : Prop := b.date ≤ a.date

instance : DecidableRel dateGE := fun a b => inferInstanceAs (Decidable (b.date ≤ a.date))

instance : IsTotal SRec dateGE := ⟨fun a b => le_total b.date a.date⟩

instance : IsTrans SRec dateGE := ⟨fun _ _ _ h h' => le_trans h' h⟩

/-- The merge step of `get_extended_match_history`: concatenate the
fragments in source-priority order, drop later duplicates of each
`(date, opponent)` key, sort descending by date (a stable sort; ties keep
their first-occurrence order). -/
def get_extended_match_history (frags : List (List SRec)) : List SRec :=
  List.insertionSort dateGE (dropDupFirst [] frags.flatten)

/-! ## Facts about the round-half-to-even model of Python's `round` -/

lemma rhe_intCast (k : ℤ) : rhe (k : ℝ) = k := by
  unfold rhe
  rw [if_neg, round_intCast]
  rw [Int.fract_intCast]
  norm_num

lemma round_eq_floor_of {x : ℝ} (h : Int.fract x < 1/2) : round x = ⌊x⌋ := by
  rw [round_eq]
  apply Int.floor_eq_iff.mpr
  have hx : (⌊x⌋ : ℝ) + Int.fract x = x := Int.floor_add_fract x
  have h0 : 0 ≤ Int.fract x := Int.fract_nonneg x
  constructor
  · linarith
  · linarith

lemma round_eq_floor_add_one_of {x : ℝ} (h : 1/2 ≤ Int.fract x) : round x = ⌊x⌋ + 1 := by
  rw [round_eq]
  apply Int.floor_eq_iff.mpr
  have hx : (⌊x⌋ : ℝ) + Int.fract x = x := Int.floor_add_fract x
  have h1 : Int.fract x < 1 := Int.fract_lt_one x
  constructor
  · push_cast
    linarith
  · push_cast
    linarith

lemma floor_le_rhe (x : ℝ) : ⌊x⌋ ≤ rhe x := by
  unfold rhe
  split_ifs with h he
  · exact le_refl _
  · omega
  · rw [round_eq]
    exact Int.floor_le_floor (by linarith)

lemma rhe_le_floor_add_one (x : ℝ) : rhe x ≤ ⌊x⌋ + 1 := by
  unfold rhe
  split_ifs with h he
  · omega
  · exact le_refl _
  · rw [round_eq]
    calc ⌊x + 1/2⌋ ≤ ⌊x + 1⌋ := Int.floor_le_floor (by linarith)
    _ = ⌊x⌋ + 1 := Int.floor_add_one x

lemma le_rhe {k : ℤ} {x : ℝ} (h : (k : ℝ) ≤ x) : k ≤ rhe x :=
  le_trans (Int.le_floor.mpr h) (floor_le_rhe x)

lemma rhe_le {k : ℤ} {x : ℝ} (h : x ≤ (k : ℝ)) : rhe x ≤ k := by
  rcases eq_or_lt_of_le h with h' | h'
  · rw [h', rhe_intCast]
  · have hf : ⌊x⌋ < k := Int.floor_lt.mpr h'
    have := rhe_le_floor_add_one x
    omega

lemma rhe_add_rev (x : ℝ) : rhe x + rhe (1000 - x) = 1000 := by
  by_cases h0 : Int.fract x = 0
  · have hx : ((⌊x⌋ : ℤ) : ℝ) = x := by
      have := Int.floor_add_fract x
      rw [h0, add_zero] at this
      exact this
    obtain ⟨k, hk⟩ : ∃ k : ℤ, x = (k : ℝ) := ⟨⌊x⌋, hx.symm⟩
    rw [hk, show (1000 : ℝ) - (k : ℝ) = ((1000 - k : ℤ) : ℝ) by push_cast; ring,
      rhe_intCast, rhe_intCast]
    omega
  · have hsplit : (1000 : ℝ) - x = ((1000 : ℤ) : ℝ) + (-x) := by
      push_cast
      ring
    have hfr : Int.fract ((1000 : ℝ) - x) = 1 - Int.fract x := by
      rw [hsplit, Int.fract_int_add, Int.fract_neg h0]
    have hfl : ⌊(1000 : ℝ) - x⌋ = 1000 - ⌊x⌋ - 1 := by
      rw [hsplit, Int.floor_int_add]
      have ha : (-x) - Int.fract (-x) = ((⌊-x⌋ : ℤ) : ℝ) := Int.self_sub_fract (-x)
      have hb : x - Int.fract x = ((⌊x⌋ : ℤ) : ℝ) := Int.self_sub_fract x
      rw [Int.fract_neg h0] at ha
      have hc : ((⌊-x⌋ : ℤ) : ℝ) = ((-⌊x⌋ - 1 : ℤ) : ℝ) := by
        push_cast
        linarith
      have hd : ⌊-x⌋ = -⌊x⌋ - 1 := by exact_mod_cast hc
      omega
    by_cases ht : Int.fract x = 1/2
    · have ht' : Int.fract ((1000 : ℝ) - x) = 1/2 := by
        rw [hfr, ht]
        norm_num
      unfold rhe
      rw [if_pos ht, if_pos ht', hfl]
      simp only [Int.even_iff]
      split_ifs <;> omega
    · have ht' : Int.fract ((1000 : ℝ) - x) ≠ 1/2 := by
        rw [hfr]
        intro hc
        exact ht (by linarith)
      unfold rhe
      rw [if_neg ht, if_neg ht']
      by_cases hlt : Int.fract x < 1/2
      · rw [round_eq_floor_of hlt,
          round_eq_floor_add_one_of
            (show (1:ℝ)/2 ≤ Int.fract ((1000:ℝ) - x) by rw [hfr]; linarith), hfl]
        omega
      · have hge : 1/2 ≤ Int.fract x := le_of_not_lt hlt
        have hgt : 1/2 < Int.fract x := lt_of_le_of_ne hge (Ne.symm ht)
        rw [round_eq_floor_add_one_of hge,
          round_eq_floor_of (by rw [hfr]; linarith : Int.fract ((1000:ℝ) - x) < 1/2), hfl]
        omega

lemma round3_add_round3_compl (x : ℝ) : round3 x + round3 (1 - x) = 1 := by
  unfold round3
  have h : (1000 : ℝ) * (1 - x) = 1000 - 1000 * x := by ring
  rw [h]
  have hsum := rhe_add_rev (1000 * x)
  have hcast : ((rhe (1000 * x) : ℤ) : ℝ) + ((rhe (1000 - 1000 * x) : ℤ) : ℝ) = 1000 := by
    exact_mod_cast congrArg (fun z : ℤ => (z : ℝ)) hsum
  linarith

lemma round3_le {x : ℝ} {k : ℤ} (h : x ≤ (k : ℝ) / 1000) : round3 x ≤ (k : ℝ) / 1000 := by
  unfold round3
  have h1 : (1000 : ℝ) * x ≤ (k : ℝ) := by linarith
  have h2 : rhe (1000 * x) ≤ k := rhe_le h1
  have h3 : ((rhe (1000 * x) : ℤ) : ℝ) ≤ (k : ℝ) := by exact_mod_cast h2
  linarith

lemma le_round3 {x : ℝ} {k : ℤ} (h : (k : ℝ) / 1000 ≤ x) : (k : ℝ) / 1000 ≤ round3 x := by
  unfold round3
  have h1 : (k : ℝ) ≤ 1000 * x := by linarith
  have h2 : k ≤ rhe (1000 * x) := le_rhe h1
  have h3 : (k : ℝ) ≤ ((rhe (1000 * x) : ℤ) : ℝ) := by exact_mod_cast h2
  linarith


/-! ## Claim C2 : the ranking prior always favors the better rank -/

lemma underdogCap_le (g : ℤ) : underdogCap g ≤ 45/100 := by
  unfold underdogCap
  split_ifs <;> norm_num

/-- Claim C2: for unequal ranks `ranking_prior` never returns `(0.5, 0.5)`
and gives the numerically better (lower) rank a probability strictly above
`0.5`; for equal ranks it returns exactly `(0.52, 0.48)`. -/
theorem ranking_prior_favors_better_rank (rank_a rank_b : ℤ) :
    (rank_a = rank_b → ranking_prior rank_a rank_b = (52/100, 48/100)) ∧
    (rank_a ≠ rank_b →
      ranking_prior rank_a rank_b ≠ (1/2, 1/2) ∧
      (rank_a < rank_b → 1/2 < (ranking_prior rank_a rank_b).1) ∧
      (rank_b < rank_a → 1/2 < (ranking_prior rank_a rank_b).2)) := by
  constructor
  · intro h
    subst h
    simp [ranking_prior]
  · intro hne
    rcases lt_or_gt_of_ne hne with h | h
    · have hcap := underdogCap_le ((get_tier rank_b : ℤ) - (get_tier rank_a : ℤ))
      unfold ranking_prior
      rw [if_pos h]
      refine ⟨?_, fun _ => by simpa using by linarith, fun h' => absurd h' (not_lt.mpr h.le)⟩
      intro hq
      have h1 := congrArg Prod.fst hq
      simp only at h1
      linarith
    · have hcap := underdogCap_le ((get_tier rank_a : ℤ) - (get_tier rank_b : ℤ))
      unfold ranking_prior
      rw [if_neg (not_lt.mpr h.le), if_pos h]
      refine ⟨?_, fun h' => absurd h' (not_lt.mpr h.le), fun _ => by simpa using by linarith⟩
      intro hq
      have h1 := congrArg Prod.snd hq
      simp only at h1
      linarith

/-- Witness for C2 at concrete ranks 2 vs 180 (unequal) and 7 vs 7 (equal). -/
theorem ranking_prior_favors_better_rank_witness :
    ((2 : ℤ) ≠ 180 ∧ 1/2 < (ranking_prior 2 180).1) ∧
    ((7 : ℤ) = 7 ∧ ranking_prior 7 7 = (52/100, 48/100)) :=
  ⟨⟨by decide, ((ranking_prior_favors_better_rank 2 180).2 (by decide)).2.1 (by decide)⟩,
   ⟨rfl, (ranking_prior_favors_better_rank 7 7).1 rfl⟩⟩

/-! ## Claim C9 : empty histories produce the documented neutral defaults -/

/-- Claim C9: every feature-extractor operation is total in this model, and
on an empty history the rating estimate is `(1500, 0.0)`, form is the neutral
default bundle, the fatigue counts are zero, the trend is
`{trend: 0, consistency: 0.5}`, and a missing or empty head-to-head subset
yields `{n_matches: 0, n_effective: 0, a_win_rate: 0.5, avg_game_diff_a: 0,
days_since_last: 9999}`. -/
theorem feature_extractor_empty_defaults (ref : ℤ) (name : String) :
    calculate_enhanced_elo [] ref = (1500, 0) ∧
    calculate_enhanced_form [] 20 =
      { win_rate := 1/2, avg_game_diff := 0, matches_played := 0,
        quality_adjusted_win_rate := 1/2, recent_momentum := 0 } ∧
    calculate_fatigue [] ref = (0, 0) ∧
    calculate_performance_trend [] ref = { trend := 0, consistency := 1/2 } ∧
    calculate_h2h none name ref =
      { n_matches := 0, n_effective := 0, a_win_rate := 1/2,
        avg_game_diff_a := 0, days_since_last := 9999 } ∧
    calculate_h2h (some []) name ref =
      { n_matches := 0, n_effective := 0, a_win_rate := 1/2,
        avg_game_diff_a := 0, days_since_last := 9999 } := by
  refine ⟨?_, ?_, ?_, ?_, ?_, ?_⟩
  · simp [calculate_enhanced_elo]
  · simp [calculate_enhanced_form]
  · simp [calculate_fatigue]
  · simp [calculate_performance_trend]
  · simp [calculate_h2h, h2hDefaults]
  · simp [calculate_h2h, h2hDefaults]

/-! ## Claim C3 : the rounded probabilities sum to exactly one -/

/-- Claim C3: for every feature bundle and every pair of ranks, the rounded
probability pair returned by `predict_match` sums to exactly 1. -/
theorem predict_match_proba_sum_one (f : Features) (rank_a rank_b : ℤ) :
    (predict_match f rank_a rank_b).probaA + (predict_match f rank_a rank_b).probaB = 1 := by
  unfold predict_match
  exact round3_add_round3_compl (p_final f rank_a rank_b)

/-! ## Claim C4 : the monotonicity floor of the better rank -/

lemma p_final_le_of_lt {f : Features} {rank_a rank_b : ℤ} (h : rank_b < rank_a) :
    p_final f rank_a rank_b ≤ 48/100 := by
  unfold p_final monotonicityClamp
  rw [if_neg (not_lt.mpr h.le), if_pos h]
  exact min_le_right _ _

lemma le_p_final_of_lt {f : Features} {rank_a rank_b : ℤ} (h : rank_a < rank_b) :
    52/100 ≤ p_final f rank_a rank_b := by
  unfold p_final monotonicityClamp
  rw [if_pos h]
  exact le_max_right _ _

/-- Claim C4: whenever one competitor's rank is strictly better (numerically
lower), `predict_match` reports at least probability 0.52 for that competitor
and at most 0.48 for the other. -/
theorem predict_match_monotonicity_floor (f : Features) (rank_a rank_b : ℤ) :
    (rank_a < rank_b →
      52/100 ≤ (predict_match f rank_a rank_b).probaA ∧
      (predict_match f rank_a rank_b).probaB ≤ 48/100) ∧
    (rank_b < rank_a →
      (predict_match f rank_a rank_b).probaA ≤ 48/100 ∧
      52/100 ≤ (predict_match f rank_a rank_b).probaB) := by
  constructor
  · intro h
    have hp := le_p_final_of_lt (f := f) h
    unfold predict_match
    constructor
    · have : ((520 : ℤ) : ℝ) / 1000 ≤ p_final f rank_a rank_b := by push_cast; linarith
      have := le_round3 this
      push_cast at this
      linarith
    · have : 1 - p_final f rank_a rank_b ≤ ((480 : ℤ) : ℝ) / 1000 := by push_cast; linarith
      have := round3_le this
      push_cast at this
      linarith
  · intro h
    have hp := p_final_le_of_lt (f := f) h
    unfold predict_match
    constructor
    · have : p_final f rank_a rank_b ≤ ((480 : ℤ) : ℝ) / 1000 := by push_cast; linarith
      have := round3_le this
      push_cast at this
      linarith
    · have : ((520 : ℤ) : ℝ) / 1000 ≤ 1 - p_final f rank_a rank_b := by push_cast; linarith
      have := le_round3 this
      push_cast at this
      linarith

/-- A neutral-default feature bundle: both players at the documented neutral
form and trend, no head-to-head history, with a fixed Elo difference. -/
noncomputable def neutralFeatures (elo_diff : ℝ) : Features :=
  { elo_diff := elo_diff
    form_a := { win_rate := 1/2, avg_game_diff := 0, matches_played := 0,
                quality_adjusted_win_rate := 1/2, recent_momentum := 0 }
    form_b := { win_rate := 1/2, avg_game_diff := 0, matches_played := 0,
                quality_adjusted_win_rate := 1/2, recent_momentum := 0 }
    h2h := { n_matches := 0, n_effective := 0, a_win_rate := 1/2,
             avg_game_diff_a := 0, days_since_last := 9999 }
    trend_a := { trend := 0, consistency := 1/2 }
    trend_b := { trend := 0, consistency := 1/2 } }

/-- Witness for C4 at the concrete ranks 2 vs 180. -/
theorem predict_match_monotonicity_floor_witness :
    (2 : ℤ) < 180 ∧ 52/100 ≤ (predict_match (neutralFeatures (-500)) 2 180).probaA :=
  ⟨by decide,
   ((predict_match_monotonicity_floor (neutralFeatures (-500)) 2 180).1 (by decide)).1⟩


/-! ## Claim C1 : the tier-gap-4 scenario with no head-to-head history -/

lemma no_override_neutral : ¬ check_override_conditions (neutralFeatures (-500)) 180 2 := by
  unfold check_override_conditions conditions_met
  have hA : ¬ condElo (neutralFeatures (-500)) 180 2 := by
    unfold condElo neutralFeatures
    rw [if_pos (by decide : (2 : ℤ) < 180)]
    norm_num
  have hC : ¬ condH2H (neutralFeatures (-500)) 180 2 := by
    unfold condH2H neutralFeatures
    intro h
    exact absurd h.1 (by norm_num)
  rw [if_neg hA, if_neg hC]
  norm_num

lemma p_final_scenario_le : p_final (neutralFeatures (-500)) 180 2 ≤ 15/100 := by
  unfold p_final
  have hgap : tier_gap_of 180 2 = 4 := by decide
  rw [hgap]
  unfold guardrailCap
  rw [if_pos ⟨by norm_num, by norm_num [neutralFeatures], no_override_neutral⟩,
    if_pos (by decide : (2 : ℤ) < 180)]
  unfold monotonicityClamp
  rw [if_neg (by decide : ¬ (180 : ℤ) < 2), if_pos (by decide : (2 : ℤ) < 180)]
  have h1 : guardCapValue 4 = 15/100 := by norm_num [guardCapValue]
  calc min (min (sigmoid (logit_final (neutralFeatures (-500)) 180 2)) (guardCapValue 4))
        (48/100)
      ≤ min (sigmoid (logit_final (neutralFeatures (-500)) 180 2)) (guardCapValue 4) :=
        min_le_left _ _
    _ ≤ guardCapValue 4 := min_le_right _ _
    _ = 15/100 := h1

/-- Claim C1: in the exact scenario `rank_A = 180`, `rank_B = 2`,
`elo_diff = -500`, empty head-to-head history and all other features at
their neutral defaults, `predict_match` reports `proba.A ≤ 0.15`,
`proba.B ≥ 0.85` and winner `B`. -/
theorem predict_match_tier_gap_four_scenario :
    (predict_match (neutralFeatures (-500)) 180 2).probaA ≤ 15/100 ∧
    (85/100 : ℝ) ≤ (predict_match (neutralFeatures (-500)) 180 2).probaB ∧
    (predict_match (neutralFeatures (-500)) 180 2).winner = Player.B := by
  have hp := p_final_scenario_le
  refine ⟨?_, ?_, ?_⟩
  · show round3 (p_final (neutralFeatures (-500)) 180 2) ≤ 15/100
    have h : p_final (neutralFeatures (-500)) 180 2 ≤ ((150 : ℤ) : ℝ) / 1000 := by
      push_cast
      linarith
    have := round3_le h
    push_cast at this
    linarith
  · show (85/100 : ℝ) ≤ round3 (1 - p_final (neutralFeatures (-500)) 180 2)
    have h : ((850 : ℤ) : ℝ) / 1000 ≤ 1 - p_final (neutralFeatures (-500)) 180 2 := by
      push_cast
      linarith
    have := le_round3 h
    push_cast at this
    linarith
  · show (if 1 - p_final (neutralFeatures (-500)) 180 2 <
        p_final (neutralFeatures (-500)) 180 2 then Player.A else Player.B) = Player.B
    rw [if_neg]
    intro hlt
    linarith

/-! ## Claim C5 : the guardrail cap and its override conditions -/

/-- A feature bundle with a dominant underdog: level Elo, perfect recent
form and a 5-0 head-to-head record for player A. -/
noncomputable def strongH2HFeatures : Features :=
  { elo_diff := 0
    form_a := { win_rate := 1, avg_game_diff := 0, matches_played := 100,
                quality_adjusted_win_rate := 1, recent_momentum := 1/2 }
    form_b := { win_rate := 0, avg_game_diff := 0, matches_played := 100,
                quality_adjusted_win_rate := 0, recent_momentum := -(1/2) }
    h2h := { n_matches := 5, n_effective := 5, a_win_rate := 1,
             avg_game_diff_a := 2, days_since_last := 100 }
    trend_a := { trend := 0, consistency := 1/2 }
    trend_b := { trend := 0, consistency := 1/2 } }

lemma evidence_probability_strong : evidence_probability strongH2HFeatures = 3/4 := by
  unfold evidence_probability strongH2HFeatures np_clip
  norm_num [Real.rpow_zero]

lemma evidence_weight_strong : calculate_evidence_weight strongH2HFeatures = 1 := by
  have h100 : Real.sqrt (100 : ℝ) = 10 := by
    rw [show (100 : ℝ) = 10 ^ 2 by norm_num, Real.sqrt_sq (by norm_num : (0 : ℝ) ≤ 10)]
  unfold calculate_evidence_weight strongH2HFeatures np_clip
  norm_num [h100]

lemma h2h_adjustment_strong : h2h_adjustment strongH2HFeatures = 3/10 := by
  unfold h2h_adjustment strongH2HFeatures
  norm_num

lemma half_lt_sigmoid {x : ℝ} (hx : 0 < x) : 1/2 < sigmoid x := by
  unfold sigmoid
  have h1 : Real.exp (-x) < 1 := Real.exp_lt_one_iff.mpr (by linarith)
  have h2 : 0 < 1 + Real.exp (-x) := by positivity
  rw [lt_div_iff₀ h2]
  linarith

lemma logit_final_strong_pos : 0 < logit_final strongH2HFeatures 51 1 := by
  unfold logit_final
  rw [evidence_probability_strong, evidence_weight_strong, h2h_adjustment_strong]
  have h3 : logit (3/4) = Real.log 3 := by
    unfold logit
    norm_num
  rw [h3]
  have := Real.log_pos (by norm_num : (1 : ℝ) < 3)
  linarith

/-- Claim C5: the tier-gap cap is skipped whenever the head-to-head record
has at least 5 matches (the guardrail requires fewer than 3); the override
check fires exactly when both implemented conditions (underdog Elo lead of
at least 180, and a 5-match 70% head-to-head share for the underdog) hold,
condition (b) being absent from the code; and a concrete tier-gap-3 input
with a 5-0 head-to-head for the underdog yields an underdog probability
above the 0.25 cap-table value. -/
theorem guardrail_cap_skip_and_override :
    (∀ (f : Features) (rank_a rank_b gap : ℤ) (p : ℝ),
      5 ≤ f.h2h.n_matches → guardrailCap f rank_a rank_b gap p = p) ∧
    (∀ (f : Features) (rank_a rank_b : ℤ),
      check_override_conditions f rank_a rank_b ↔
        condElo f rank_a rank_b ∧ condH2H f rank_a rank_b) ∧
    (tier_gap_of 51 1 = 3 ∧ 5 ≤ strongH2HFeatures.h2h.n_matches ∧
      (70/100 : ℝ) ≤ strongH2HFeatures.h2h.a_win_rate ∧
      guardCapValue (tier_gap_of 51 1) < (predict_match strongH2HFeatures 51 1).probaA) := by
  refine ⟨?_, ?_, ?_, ?_, ?_, ?_⟩
  · intro f rank_a rank_b gap p h5
    unfold guardrailCap
    rw [if_neg]
    rintro ⟨-, h3, -⟩
    omega
  · intro f rank_a rank_b
    unfold check_override_conditions conditions_met
    by_cases hA : condElo f rank_a rank_b <;> by_cases hC : condH2H f rank_a rank_b <;>
      simp [hA, hC]
  · decide
  · norm_num [strongH2HFeatures]
  · norm_num [strongH2HFeatures]
  · have hgap : tier_gap_of 51 1 = 3 := by decide
    have hsig := half_lt_sigmoid logit_final_strong_pos
    have hpf : p_final strongH2HFeatures 51 1 = 48/100 := by
      unfold p_final
      unfold guardrailCap
      rw [if_neg (by rintro ⟨-, h3, -⟩; norm_num [strongH2HFeatures] at h3)]
      unfold monotonicityClamp
      rw [if_neg (by decide : ¬ (51 : ℤ) < 1), if_pos (by decide : (1 : ℤ) < 51)]
      exact min_eq_right (by linarith)
    show guardCapValue (tier_gap_of 51 1) <
      round3 (p_final strongH2HFeatures 51 1)
    rw [hgap, hpf]
    have h480 : round3 (48/100) = 48/100 := by
      unfold round3
      rw [show (1000 : ℝ) * (48/100) = ((480 : ℤ) : ℝ) by push_cast; norm_num,
        rhe_intCast]
      push_cast
      norm_num
    rw [h480]
    norm_num [guardCapValue]

/-- Witness for C5: the cap-skip hypothesis holds at the concrete strong
head-to-head bundle, and the cap stage is the identity there. -/
theorem guardrail_cap_skip_and_override_witness :
    5 ≤ strongH2HFeatures.h2h.n_matches ∧
    guardrailCap strongH2HFeatures 51 1 3 (1/2) = 1/2 :=
  ⟨by norm_num [strongH2HFeatures],
   guardrail_cap_skip_and_override.1 strongH2HFeatures 51 1 3 (1/2)
     (by norm_num [strongH2HFeatures])⟩

/-! ## Claim C10 : the rating walk is order-invariant -/

lemma eloStep_eq_add_contrib (ref : ℤ) (e : ℝ) (m : MRec) :
    eloStep ref e m = e + eloContrib ref m := by
  unfold eloStep eloContrib
  by_cases h : m.result <;> simp [h]
  ring

lemma foldl_eloStep_eq (ref : ℤ) (l : List MRec) :
    ∀ init : ℝ, l.foldl (eloStep ref) init = init + (l.map (eloContrib ref)).sum := by
  induction l with
  | nil => intro init; simp
  | cons m ms ih =>
    intro init
    rw [List.foldl_cons, eloStep_eq_add_contrib, ih, List.map_cons, List.sum_cons]
    ring

/-- Claim C10: each match contributes a fixed increment (the half-life
weighted, opponent-strength-adjusted K step, halved and negated for losses)
that does not depend on the running rating, so `calculate_enhanced_elo` is
invariant under permutation of the history and, on non-empty input, its
rating equals 1500 plus the sum of the per-match contributions clamped to
`[1000, 2500]`. -/
theorem calculate_enhanced_elo_order_invariant :
    (∀ (ref : ℤ) (l l' : List MRec), l.Perm l' →
      calculate_enhanced_elo l ref = calculate_enhanced_elo l' ref) ∧
    (∀ (ref : ℤ) (l : List MRec), l ≠ [] →
      (calculate_enhanced_elo l ref).1 =
        max 1000 (min 2500 (1500 + (l.map (eloContrib ref)).sum))) := by
  constructor
  · intro ref l l' hperm
    by_cases hl : l = []
    · subst hl
      rw [hperm.symm.eq_nil]
    · have hl' : l' ≠ [] := by
        intro h
        subst h
        exact hl hperm.eq_nil
      unfold calculate_enhanced_elo
      rw [if_neg hl, if_neg hl']
      have hsum : (l.map (eloContrib ref)).sum = (l'.map (eloContrib ref)).sum :=
        (hperm.map (eloContrib ref)).sum_eq
      have hq : (l.map fun m => estimate_opponent_strength m * eloWeight ref m).sum =
          (l'.map fun m => estimate_opponent_strength m * eloWeight ref m).sum :=
        (hperm.map _).sum_eq
      rw [foldl_eloStep_eq, foldl_eloStep_eq, hsum, hq, hperm.length_eq]
  · intro ref l hl
    unfold calculate_enhanced_elo
    rw [if_neg hl]
    simp only
    rw [foldl_eloStep_eq]

/-- A concrete win over a close four-game match. -/
def mWin : MRec := ⟨0, true, 3, 1, [(11, 9), (11, 8), (5, 11), (11, 7)]⟩

/-- A concrete loss from a month earlier. -/
def mLoss : MRec := ⟨-30, false, 1, 3, [(9, 11), (11, 6), (8, 11), (9, 11)]⟩

/-- Witness for C10: swapping two concrete matches leaves the rating
estimate unchanged. -/
theorem calculate_enhanced_elo_order_invariant_witness :
    ([mWin, mLoss] : List MRec).Perm [mLoss, mWin] ∧
    calculate_enhanced_elo [mWin, mLoss] 100 = calculate_enhanced_elo [mLoss, mWin] 100 :=
  ⟨List.Perm.swap mLoss mWin [],
   calculate_enhanced_elo_order_invariant.1 100 _ _ (List.Perm.swap mLoss mWin [])⟩

/-! ## Claim C6 : the head-to-head effective sample size -/

/-- Counterexample to C6 as stated: for a single head-to-head match exactly
365 days old, the code computes `0.5 ** (365/365) = 0.5`, not the
`0.5 ** (365/180)` that the 180-day half-life of the rating estimate
would give. -/
theorem h2h_n_effective_not_180_halflife :
    (calculate_h2h (some [⟨0, true, 3, 0⟩]) "A" 365).n_effective ≠
      h2h_n_effective_spec [⟨0, true, 3, 0⟩] 365 := by
  have hcode : (calculate_h2h (some [⟨0, true, 3, 0⟩]) "A" 365).n_effective = 1/2 := by
    unfold calculate_h2h
    norm_num [h2hWeight]
  have hspec : h2h_n_effective_spec [⟨0, true, 3, 0⟩] 365 = (1/2 : ℝ) ^ ((365 : ℝ) / 180) := by
    unfold h2h_n_effective_spec
    norm_num
  rw [hcode, hspec]
  intro heq
  have hlt : (1/2 : ℝ) ^ ((365 : ℝ) / 180) < (1/2 : ℝ) ^ ((1 : ℝ)) :=
    Real.rpow_lt_rpow_of_exponent_gt (by norm_num) (by norm_num) (by norm_num)
  rw [Real.rpow_one] at hlt
  linarith

/-- Claim C6 as amended: for every non-empty head-to-head history the
effective sample size is the sum of `0.5 ** (days_ago / 365)` — a 365-day
half-life, not the rating estimate's 180-day one — over the matches dated
within the last 730 days of the reference date. -/
theorem h2h_n_effective_halflife_365 (rows : List HRec) (name : String) (ref : ℤ)
    (hne : rows ≠ []) :
    (calculate_h2h (some rows) name ref).n_effective =
      ((rows.filter fun r => ref - 730 ≤ r.date).map (h2hWeight ref)).sum := by
  simp only [calculate_h2h]
  rw [if_neg hne]
  by_cases h : rows.filter (fun r => ref - 730 ≤ r.date) = []
  · rw [if_pos h, h]
    simp
  · rw [if_neg h]

/-- Witness for the amended C6 at a concrete one-match history. -/
theorem h2h_n_effective_halflife_365_witness :
    ([(⟨0, true, 3, 0⟩ : HRec)] ≠ []) ∧
    (calculate_h2h (some [⟨0, true, 3, 0⟩]) "A" 365).n_effective =
      (([(⟨0, true, 3, 0⟩ : HRec)].filter fun r => (365 : ℤ) - 730 ≤ r.date).map
        (h2hWeight 365)).sum :=
  ⟨by simp, h2h_n_effective_halflife_365 [⟨0, true, 3, 0⟩] "A" 365 (by simp)⟩

/-! ## Claim C7 : the performance-trend characterization -/

/-- Counterexample input for C7: one loss and one win, in two different
2-week buckets of the 12-week window, but only two matches overall. -/
def trendCEx : List MRec := [⟨14, true, 3, 1, []⟩, ⟨0, false, 1, 3, []⟩]

lemma range_six : List.range 6 = [0, 1, 2, 3, 4, 5] := rfl

lemma bucketRates_trendCEx : bucketRates trendCEx 84 = [0, 1] := by
  unfold bucketRates trendCEx
  rw [range_six]
  norm_num [List.filter, List.filterMap]

lemma lsSlope_zero_one : lsSlope [(0 : ℝ), 1] = 1 := by
  unfold lsSlope
  norm_num [List.range_succ]

/-- Counterexample to C7 as stated: a history whose last 12 weeks yield two
non-empty 2-week buckets but only two matches in the window; the code
returns the neutral `trend = 0` (the `< 3` matches guard fires), while the
claim demands the least-squares slope 1 of the bucket win rates. -/
theorem performance_trend_two_bucket_counterexample :
    2 ≤ (bucketRates trendCEx 84).length ∧
    (calculate_performance_trend trendCEx 84).trend ≠ lsSlope (bucketRates trendCEx 84) := by
  constructor
  · rw [bucketRates_trendCEx]
    norm_num
  · have htrend : (calculate_performance_trend trendCEx 84).trend = 0 := by
      unfold calculate_performance_trend
      rw [if_neg (by decide : ¬ trendCEx = []),
        if_pos (by decide : (trendCEx.filter fun m => (84 : ℤ) - 84 ≤ m.date).length < 3)]
    rw [htrend, bucketRates_trendCEx, lsSlope_zero_one]
    norm_num

/-- Claim C7 as amended: when the 12-week window holds at least 3 matches
and at least 2 non-empty 2-week buckets, the trend is the least-squares
slope of the bucket win rates and the consistency is `1 - variance`
clamped to `[0, 1]`; in every other case (which includes windows with
2 non-empty buckets but fewer than 3 matches) the result is
`{trend: 0, consistency: 0.5}`. -/
theorem performance_trend_characterization (hist : List MRec) (ref : ℤ) :
    (3 ≤ (hist.filter fun m => ref - 84 ≤ m.date).length →
      2 ≤ (bucketRates hist ref).length →
      calculate_performance_trend hist ref =
        { trend := lsSlope (bucketRates hist ref),
          consistency := clamp01 (1 - npVar (bucketRates hist ref)) }) ∧
    ((hist.filter fun m => ref - 84 ≤ m.date).length < 3 ∨
        (bucketRates hist ref).length < 2 →
      calculate_performance_trend hist ref = { trend := 0, consistency := 1/2 }) := by
  constructor
  · intro h3 h2
    have hne : hist ≠ [] := by
      intro h
      subst h
      simp at h3
    unfold calculate_performance_trend
    rw [if_neg hne, if_neg (not_lt.mpr h3), if_pos h2]
  · intro h
    unfold calculate_performance_trend
    by_cases hne : hist = []
    · rw [if_pos hne]
    · rw [if_neg hne]
      by_cases hr : (hist.filter fun m => ref - 84 ≤ m.date).length < 3
      · rw [if_pos hr]
      · rcases h with h | h
        · exact absurd h hr
        · rw [if_neg hr, if_neg (not_le.mpr h)]
          have : clamp01 (1/2) = (1/2 : ℝ) := by
            unfold clamp01
            norm_num
          rw [this]

/-- Witness input for the amended C7: three matches across two buckets. -/
def trendWit : List MRec := [⟨14, true, 3, 1, []⟩, ⟨1, true, 3, 0, []⟩, ⟨0, false, 1, 3, []⟩]

lemma bucketRates_trendWit : bucketRates trendWit 84 = [1/2, 1] := by
  unfold bucketRates trendWit
  rw [range_six]
  norm_num [List.filter, List.filterMap]

/-- Witness for the amended C7 at a concrete three-match history. -/
theorem performance_trend_characterization_witness :
    3 ≤ (trendWit.filter fun m => (84 : ℤ) - 84 ≤ m.date).length ∧
    2 ≤ (bucketRates trendWit 84).length ∧
    calculate_performance_trend trendWit 84 =
      { trend := lsSlope (bucketRates trendWit 84),
        consistency := clamp01 (1 - npVar (bucketRates trendWit 84)) } :=
  ⟨by decide, by rw [bucketRates_trendWit]; norm_num,
   (performance_trend_characterization trendWit 84).1 (by decide)
     (by rw [bucketRates_trendWit]; norm_num)⟩

/-! ## Claim C8 : the history aggregator -/

lemma skey_notin_seen_of_mem_dropDupFirst :
    ∀ (l : List SRec) (seen : List (ℤ × String)) (x : SRec),
      x ∈ dropDupFirst seen l → skey x ∉ seen := by
  intro l
  induction l with
  | nil =>
    intro seen x hx
    simp [dropDupFirst] at hx
  | cons r rs ih =>
    intro seen x hx
    simp only [dropDupFirst] at hx
    by_cases h : skey r ∈ seen
    · rw [if_pos h] at hx
      exact ih seen x hx
    · rw [if_neg h] at hx
      rcases List.mem_cons.mp hx with rfl | hx'
      · exact h
      · have hs := ih (skey r :: seen) x hx'
        intro hc
        exact hs (List.mem_cons_of_mem _ hc)

lemma pairwise_skey_dropDupFirst :
    ∀ (l : List SRec) (seen : List (ℤ × String)),
      (dropDupFirst seen l).Pairwise (fun a b => skey a ≠ skey b) := by
  intro l
  induction l with
  | nil =>
    intro seen
    simp [dropDupFirst]
  | cons r rs ih =>
    intro seen
    simp only [dropDupFirst]
    split_ifs with h
    · exact ih seen
    · refine List.Pairwise.cons ?_ (ih _)
      intro y hy hc
      have hs := skey_notin_seen_of_mem_dropDupFirst rs (skey r :: seen) y hy
      exact hs (hc ▸ List.mem_cons_self _ _)

lemma find?_eq_of_mem_dropDupFirst :
    ∀ (l : List SRec) (seen : List (ℤ × String)) (x : SRec),
      x ∈ dropDupFirst seen l →
      l.find? (fun s => decide (skey s = skey x)) = some x := by
  intro l
  induction l with
  | nil =>
    intro seen x hx
    simp [dropDupFirst] at hx
  | cons r rs ih =>
    intro seen x hx
    simp only [dropDupFirst] at hx
    split_ifs at hx with h
    · have hnot := skey_notin_seen_of_mem_dropDupFirst rs seen x hx
      rw [List.find?_cons_of_neg]
      · exact ih seen x hx
      · simp only [decide_eq_true_eq]
        intro hc
        exact hnot (hc ▸ h)
    · rcases List.mem_cons.mp hx with rfl | hx'
      · rw [List.find?_cons_of_pos]
        simp
      · have hnot := skey_notin_seen_of_mem_dropDupFirst rs (skey r :: seen) x hx'
        rw [List.find?_cons_of_neg]
        · exact ih _ x hx'
        · simp only [decide_eq_true_eq]
          intro hc
          exact hnot (by rw [← hc]; exact List.mem_cons_self _ _)

lemma dropDupFirst_eq_self :
    ∀ (l : List SRec) (seen : List (ℤ × String)),
      l.Pairwise (fun a b => skey a ≠ skey b) →
      (∀ x ∈ l, skey x ∉ seen) → dropDupFirst seen l = l := by
  intro l
  induction l with
  | nil =>
    intro seen _ _
    simp [dropDupFirst]
  | cons r rs ih =>
    intro seen hp hs
    simp only [dropDupFirst]
    rw [if_neg (hs r (List.mem_cons_self r rs))]
    congr 1
    refine ih _ (List.Pairwise.of_cons hp) ?_
    intro x hx hc
    rcases List.mem_cons.mp hc with hc1 | hc2
    · exact (List.pairwise_cons.mp hp).1 x hx hc1.symm
    · exact hs x (List.mem_cons_of_mem _ hx) hc2

lemma dropDupFirst_eq_nil :
    ∀ (l : List SRec) (seen : List (ℤ × String)),
      (∀ x ∈ l, skey x ∈ seen) → dropDupFirst seen l = [] := by
  intro l
  induction l with
  | nil =>
    intro seen _
    simp [dropDupFirst]
  | cons r rs ih =>
    intro seen hs
    simp only [dropDupFirst]
    rw [if_pos (hs r (List.mem_cons_self _ _))]
    exact ih seen fun x hx => hs x (List.mem_cons_of_mem _ hx)

lemma dropDupFirst_congr_seen :
    ∀ (l : List SRec) (s₁ s₂ : List (ℤ × String)),
      (∀ k, k ∈ s₁ ↔ k ∈ s₂) → dropDupFirst s₁ l = dropDupFirst s₂ l := by
  intro l
  induction l with
  | nil =>
    intro s₁ s₂ _
    simp [dropDupFirst]
  | cons r rs ih =>
    intro s₁ s₂ hiff
    simp only [dropDupFirst]
    by_cases h : skey r ∈ s₁
    · rw [if_pos h, if_pos ((hiff _).mp h)]
      exact ih s₁ s₂ hiff
    · rw [if_neg h, if_neg (fun hc => h ((hiff _).mpr hc))]
      congr 1
      refine ih _ _ ?_
      intro k
      simp only [List.mem_cons, hiff k]

lemma dropDupFirst_append :
    ∀ (l l' : List SRec) (seen : List (ℤ × String)),
      dropDupFirst seen (l ++ l') =
        dropDupFirst seen l ++
          dropDupFirst ((dropDupFirst seen l).map skey ++ seen) l' := by
  intro l
  induction l with
  | nil =>
    intro l' seen
    simp [dropDupFirst]
  | cons r rs ih =>
    intro l' seen
    simp only [List.cons_append, dropDupFirst]
    by_cases h : skey r ∈ seen
    · rw [if_pos h, if_pos h]
      exact ih l' seen
    · rw [if_neg h, if_neg h]
      simp only [List.cons_append, List.append_eq]
      congr 1
      rw [ih l' (skey r :: seen)]
      congr 1
      refine dropDupFirst_congr_seen _ _ _ ?_
      intro k
      simp only [List.map_cons, List.mem_append, List.mem_cons]
      tauto

lemma merge_self_eq {M : List SRec}
    (hpair : M.Pairwise fun a b => skey a ≠ skey b)
    (hsorted : List.Sorted dateGE M) :
    get_extended_match_history [M, M] = M := by
  unfold get_extended_match_history
  have hflat : ([M, M] : List (List SRec)).flatten = M ++ M := by simp
  have hself : dropDupFirst [] M = M := dropDupFirst_eq_self M [] hpair (by simp)
  have hnil : dropDupFirst (M.map skey ++ []) M = [] := by
    apply dropDupFirst_eq_nil
    intro x hx
    simp only [List.append_nil, List.mem_map]
    exact ⟨x, hx, rfl⟩
  rw [hflat, dropDupFirst_append, hself, hnil, List.append_nil]
  exact List.Sorted.insertionSort_eq hsorted

/-- Claim C8: merging source-tagged fragments concatenates them, keeps for
each `(date, opponent)` key exactly one record — the first occurrence in
priority (concatenation) order, i.e. the highest-priority source's record —
and sorts descending by date; and merging an already-merged history with
itself returns it unchanged. -/
theorem history_merge_spec (frags : List (List SRec)) :
    List.Sorted dateGE (get_extended_match_history frags) ∧
    (get_extended_match_history frags).Pairwise (fun a b => skey a ≠ skey b) ∧
    (∀ x ∈ get_extended_match_history frags,
      frags.flatten.find? (fun s => decide (skey s = skey x)) = some x) ∧
    get_extended_match_history
        [get_extended_match_history frags, get_extended_match_history frags] =
      get_extended_match_history frags := by
  have hperm : (get_extended_match_history frags).Perm (dropDupFirst [] frags.flatten) :=
    List.perm_insertionSort dateGE _
  have hsym : ∀ {a b : SRec}, skey a ≠ skey b → skey b ≠ skey a := fun h hc => h hc.symm
  have hpair : (get_extended_match_history frags).Pairwise (fun a b => skey a ≠ skey b) :=
    (List.Perm.pairwise_iff hsym hperm).mpr (pairwise_skey_dropDupFirst _ _)
  have hsorted : List.Sorted dateGE (get_extended_match_history frags) :=
    List.sorted_insertionSort dateGE _
  refine ⟨hsorted, hpair, ?_, merge_self_eq hpair hsorted⟩
  intro x hx
  exact find?_eq_of_mem_dropDupFirst _ _ _ (hperm.mem_iff.mp hx)

/-- A record from the highest-priority source. -/
def rTop : SRec := ⟨10, "x", true, 3, 0, "psa_website"⟩

/-- A conflicting record for the same `(date, opponent)` key from a
lower-priority source. -/
def rDup : SRec := ⟨10, "x", false, 1, 3, "squashlevels"⟩

/-- An unrelated record from the lower-priority source. -/
def rOther : SRec := ⟨5, "y", true, 3, 1, "squashlevels"⟩

/-- Witness for C8: in a concrete two-fragment merge with a key collision,
the kept record for the collided key is the highest-priority one. -/
theorem history_merge_spec_witness :
    rTop ∈ get_extended_match_history [[rTop], [rDup, rOther]] ∧
    ([[rTop], [rDup, rOther]] : List (List SRec)).flatten.find?
      (fun s => decide (skey s = skey rTop)) = some rTop :=
  ⟨by decide, (history_merge_spec [[rTop], [rDup, rOther]]).2.2.1 rTop (by decide)⟩

end PSA
